import Mathlib

/-!
Verification of the `cnn-annotator` repository: a shallow embedding of the
annotation-export code in `notebooks/A_CNN_Annotation_with_Napari.ipynb`
(`get_image_patch`, the `CellState` enum with its keyboard cycling, and the
`cnn_annotation_widget` export) and of `create_tf_record` from the training
notebook, together with theorems settling the specification claims.

Python semantics (list slicing, indexing, `int()` truncation, `%`) are
modelled explicitly; machine integers are `Int`/`Nat` with explicit wrapping
where casts occur.  Fallible code returns `Except`.
-/

/-- Python exception kinds that the modelled code can raise. -/
inductive PyError
  | valueError (msg : String)
  | indexError
  | keyError
deriving DecidableEq, Repr

/-- Normalise one endpoint of a Python slice `l[a:b]` (step 1) for a list of
length `n`: negative indices count from the end (clamped at 0), positive
indices are clamped at `n`. -/
def pySliceIdx (n : Nat) (i : Int) : Nat :=
  if i < 0 then (i + n).toNat else min i.toNat n

/-- Python list/array slicing `l[a:b]` with step 1. -/
def pySlice (l : List α) (a b : Int) : List α :=
  (l.drop (pySliceIdx l.length a)).take (pySliceIdx l.length b - pySliceIdx l.length a)

/-- Python list/array indexing `l[i]`: negative indices count from the end,
out-of-range access is an `IndexError` (modelled as `none`). -/
def pyIndex (l : List α) (i : Int) : Option α :=
  let j := if i < 0 then i + (l.length : Int) else i
  if 0 ≤ j then l[j.toNat]? else none

/-- Python `int()` applied to a (rational-valued) float: truncation toward
zero. -/
def pyInt (q : ℚ) : Int :=
  if 0 ≤ q then ⌊q⌋ else ⌈q⌉

/-- The numpy shape of `np.array(rows)` for a list of rows, when that shape is
a pair: `none` for an empty list (shape `(0,)`) or a ragged list of rows
(object array of shape `(n,)`), otherwise `(number of rows, row length)`. -/
def npShape2 (patch : List (List Int)) : Option (Nat × Nat) :=
  match patch with
  | [] => none
  | r :: rs =>
    if rs.all (fun row => row.length = r.length) then some (rs.length + 1, r.length)
    else none

/-- Rendering of the numpy shape used in the `ValueError` message. -/
def npShapeStr (patch : List (List Int)) : String :=
  match npShape2 patch with
  | some (a, b) => "(" ++ toString a ++ ", " ++ toString b ++ ")"
  | none => "(" ++ toString patch.length ++ ",)"

/-- A napari `Image` layer: name, 3-d data `(T, H, W)`, metadata dict,
visibility flag. -/
structure ImageLayer where
  name : String
  data : List (List (List Int))
  metadata : List (String × String)
  visible : Bool
deriving DecidableEq, Repr

/-- Element access with defaults, as used to state pixel equalities. -/
def pixelAt (img : List (List Int)) (i j : Nat) : Int :=
  (img.getD i []).getD j 0

/-- Embedding of `get_image_patch(layers, coords, shape)` from
`A_CNN_Annotation_with_Napari.ipynb`: truncate the coordinates with `int()`,
read frame `layers[0].data[frame]`, crop
`[row[x-pad : x+pad] for row in image[y-pad : y+pad]]` with `pad = shape // 2`,
and raise `ValueError` unless the crop has shape `(shape, shape)`. -/
def get_image_patch (layers : List ImageLayer) (coords : ℚ × ℚ × ℚ) (shape : Nat) :
    Except PyError (List (List Int)) :=
  match layers with
  | [] => Except.error PyError.indexError
  | layer :: _ =>
    let frame := pyInt coords.1
    let y_coo := pyInt coords.2.1
    let x_coo := pyInt coords.2.2
    let pad : Nat := shape / 2
    match pyIndex layer.data frame with
    | none => Except.error PyError.indexError
    | some image =>
      let patch := (pySlice image (y_coo - pad) (y_coo + pad)).map
        (fun row => pySlice row (x_coo - pad) (x_coo + pad))
      if npShape2 patch = some (shape, shape) then Except.ok patch
      else Except.error
        (PyError.valueError ("Image patch does not have correct shape: " ++ npShapeStr patch))

/-- The `CellState` enumeration from the annotation notebook. -/
inductive CellState
  | Interphase
  | Prometaphase
  | Metaphase
  | Anaphase
  | Apoptosis
deriving DecidableEq, Repr

/-- The `.value` of a `CellState` member. -/
def CellState.value : CellState → Int
  | .Interphase => 0
  | .Prometaphase => 1
  | .Metaphase => 2
  | .Anaphase => 3
  | .Apoptosis => 4

/-- Python `CellState(n)`: look a member up by value, `ValueError` (modelled
as `none`) if there is none. -/
def CellState.fromValue : Int → Option CellState
  | 0 => some .Interphase
  | 1 => some .Prometaphase
  | 2 => some .Metaphase
  | 3 => some .Anaphase
  | 4 => some .Apoptosis
  | _ => none

/-- The `.`-key handler: `CellState((state.value + 1) % len(CellState))`. -/
def next_label (s : CellState) : Option CellState :=
  CellState.fromValue ((s.value + 1) % 5)

/-- The `,`-key handler: `CellState((state.value - 1) % len(CellState))`. -/
def previous_label (s : CellState) : Option CellState :=
  CellState.fromValue ((s.value - 1) % 5)

/-- A JSON value occurring in the exported `annotation_<timestamp>.json`. -/
inductive JVal
  | nat (n : Nat)
  | meta (m : List (String × String))
  | nums (l : List ℚ)
  | strs (l : List String)
deriving DecidableEq, Repr

/-- An entry of the exported zip archive: a TIFF patch (the third-party TIFF
codec is modelled as lossless, so the content is the patch itself) or the JSON
log. -/
inductive ZipContent
  | tiff (patch : List (List Int))
  | json (doc : List (String × JVal))
deriving DecidableEq, Repr

/-- A named member of a zip archive. -/
structure ZipEntry where
  name : String
  content : ZipContent
deriving DecidableEq, Repr

/-- One annotated point of the napari points layer: its coordinates
`(frame, y, x)` and its `State` property (a label name). -/
structure AnnPoint where
  coords : ℚ × ℚ × ℚ
  state : String
deriving DecidableEq, Repr

/-- Python `enumerate` starting at `i`. -/
def enumFrom (i : Nat) : List α → List (Nat × α)
  | [] => []
  | a :: as => (i, a) :: enumFrom (i + 1) as

/-- Insertion into a Python dict modelled as an ordered association list:
an existing key is overwritten in place, a new key is appended. -/
def pyDictInsert (d : List (String × JVal)) (k : String) (v : JVal) :
    List (String × JVal) :=
  if d.any (fun kv => kv.1 == k) then d.map (fun kv => if kv.1 == k then (k, v) else kv)
  else d ++ [(k, v)]

/-- Select coordinate axis `i` of a point (`points_layer.data[:, i]`,
`ndim = 3`). -/
def coordAt (i : Nat) (c : ℚ × ℚ × ℚ) : ℚ :=
  match i with
  | 0 => c.1
  | 1 => c.2.1
  | _ => c.2.2

/-- The `export_data` dict built by `cnn_annotation_widget`: key `"shape"`,
then the metadata of each visible image layer (only when
`use_visible_layers` is set), then `"coords-0"`, `"coords-1"`, `"coords-2"`,
then `"labels"`. -/
def buildExportData (shape : Nat) (useVisibleLayers : Bool)
    (imageLayers : List ImageLayer) (points : List AnnPoint) :
    List (String × JVal) :=
  let d0 := [("shape", JVal.nat shape)]
  let d1 := imageLayers.foldl
    (fun d layer =>
      if useVisibleLayers && layer.visible then pyDictInsert d layer.name (JVal.meta layer.metadata)
      else d) d0
  let d2 := (List.range 3).foldl
    (fun d i => pyDictInsert d ("coords-" ++ toString i)
      (JVal.nums (points.map (fun p => coordAt i p.coords)))) d1
  pyDictInsert d2 "labels" (JVal.strs (points.map (fun p => p.state)))

/-- The file name of an exported patch:
`f"{label}/{label}_{SESSION_TIME}_{idx}.tif"`. -/
def patchFileName (sessionTime : String) (idx : Nat) (lbl : String) : String :=
  lbl ++ "/" ++ lbl ++ "_" ++ sessionTime ++ "_" ++ toString idx ++ ".tif"

/-- The patch-export loop of `cnn_annotation_widget`: writes one TIFF zip
entry per point; an exception from `get_image_patch` aborts the loop, keeping
the entries already written. -/
def exportLoop (sessionTime : String) (imageLayers : List ImageLayer) (shape : Nat) :
    Nat → List AnnPoint → List ZipEntry × Option PyError
  | _, [] => ([], none)
  | idx, p :: ps =>
    match get_image_patch imageLayers p.coords shape with
    | Except.error e => ([], some e)
    | Except.ok patch =>
      let rest := exportLoop sessionTime imageLayers shape (idx + 1) ps
      (⟨patchFileName sessionTime idx p.state, ZipContent.tiff patch⟩ :: rest.1, rest.2)

/-- The outcome of pressing `Export`: the zip file name, the zip entries
actually written, and the exception (if any) that aborted the export. -/
structure ExportResult where
  zipName : String
  entries : List ZipEntry
  exportError : Option PyError
deriving DecidableEq, Repr

/-- Embedding of `cnn_annotation_widget`: build `export_data`, then write one
TIFF entry per annotated point into `annotation_<timestamp>.zip`, and finally
the JSON log `annotation_<timestamp>.json`; an exception while cropping aborts
the export, so the JSON entry is only written when every patch succeeded. -/
def cnn_annotation_widget (sessionTime : String) (imageLayers : List ImageLayer)
    (points : List AnnPoint) (shape : Nat) (useVisibleLayers : Bool) : ExportResult :=
  let sessionName := "annotation_" ++ sessionTime
  let exportData := buildExportData shape useVisibleLayers imageLayers points
  let res := exportLoop sessionTime imageLayers shape 0 points
  match res.2 with
  | some e => ⟨sessionName ++ ".zip", res.1, some e⟩
  | none =>
    ⟨sessionName ++ ".zip",
     res.1 ++ [⟨sessionName ++ ".json", ZipContent.json exportData⟩], none⟩

/-- The `LABELS` list of the training notebook. -/
def LABELS : List String :=
  ["Interphase", "Prometaphase", "Metaphase", "Anaphase", "Apoptosis"]

/-- Python `str.capitalize()`: first character upper-cased, the rest
lower-cased. -/
def pyCapitalize (s : String) : String :=
  match s.data with
  | [] => ""
  | c :: cs => String.mk (c.toUpper :: cs.map Char.toLower)

/-- Python `str.startswith(pre)`. -/
def pyStartswith (s pre : String) : Bool :=
  pre.data.isPrefixOf s.data

/-- Python `str.endswith(suf)`. -/
def pyEndswith (s suf : String) : Bool :=
  suf.data.isSuffixOf s.data

/-- `zip_data.open(f)`: the (first) entry of the archive with name `f`. -/
def zipOpen (z : List ZipEntry) (f : String) : Option ZipContent :=
  (z.find? (fun e => e.name == f)).map (fun e => e.content)

/-- `imread(zip_data.open(f))`: succeeds exactly on TIFF entries (the TIFF
codec round-trips losslessly). -/
def imreadEntry (z : List ZipEntry) (f : String) : Except PyError (List (List Int)) :=
  match zipOpen z f with
  | some (ZipContent.tiff p) => Except.ok p
  | some (ZipContent.json _) => Except.error (PyError.valueError "not an image file")
  | none => Except.error PyError.keyError

/-- Model of the third-party `skimage.transform.resize(img, (64, 64),
preserve_range=True)`: nearest-neighbour resampling to a 64×64 grid; on an
image that is already 64×64 this is the identity, matching the library's
value-preserving behaviour there. -/
def resize64 (img : List (List Int)) : List (List Int) :=
  let h := img.length
  let w := (img.headD []).length
  (List.range 64).map (fun i => (List.range 64).map (fun j => pixelAt img (i * h / 64) (j * w / 64)))

/-- `astype(np.uint8)` on one pixel: wrap modulo `2^8`. -/
def toUint8 (v : Int) : Int :=
  v % 256

/-- `astype(np.int64)` on one label: wrap into `[-2^63, 2^63)`. -/
def toInt64 (v : Int) : Int :=
  (v + 2 ^ 63) % 2 ^ 64 - 2 ^ 63

/-- `[..., np.newaxis]`: append a trailing channel axis of size 1. -/
def addChannel (img : List (List Int)) : List (List (List Int)) :=
  img.map (fun row => row.map (fun v => [v]))

/-- The patch files of one archive selected for one label:
`[f for f in files if f.endswith(".tif") and f.startswith(label.capitalize())]`. -/
def patchFiles (z : List ZipEntry) (label : String) : List String :=
  (z.map (fun e => e.name)).filter
    (fun f => pyEndswith f ".tif" && pyStartswith f (pyCapitalize label))

/-- Effectful map over a list in `Except`, mirroring a Python list
comprehension in which each element may raise. -/
def mapE (g : α → Except PyError β) : List α → Except PyError (List β)
  | [] => Except.ok []
  | a :: as => do
    let b ← g a
    let bs ← mapE g as
    Except.ok (b :: bs)

/-- `images_resized` for one archive and one label: read every matching patch
file and resize it to 64×64. -/
def perLabelImages (z : List ZipEntry) (label : String) :
    Except PyError (List (List (List Int))) := do
  let images ← mapE (imreadEntry z) (patchFiles z label)
  Except.ok (images.map resize64)

/-- The inner loop of `create_tf_record` over `enumerate(labels)` (starting at
numeric label `i`), accumulating resized images and their numeric labels. -/
def collectLabels (z : List ZipEntry) :
    Nat → List String → Except PyError (List (List (List Int)) × List Int)
  | _, [] => Except.ok ([], [])
  | i, label :: rest => do
    let imgs ← perLabelImages z label
    let tail ← collectLabels z (i + 1) rest
    Except.ok (imgs ++ tail.1, List.replicate imgs.length (i : Int) ++ tail.2)

/-- The outer loop of `create_tf_record` over the zip archives. -/
def collectZips (labels : List String) :
    List (List ZipEntry) → Except PyError (List (List (List Int)) × List Int)
  | [] => Except.ok ([], [])
  | z :: zs => do
    let head ← collectLabels z 0 labels
    let tail ← collectZips labels zs
    Except.ok (head.1 ++ tail.1, head.2 ++ tail.2)

/-- What `write_dataset` receives: the stacked images (with channel axis,
cast to `uint8`) and the labels (cast to `int64`). -/
structure Dataset where
  images : List (List (List (List Int)))
  labels : List Int
deriving DecidableEq, Repr

/-- Embedding of `create_tf_record`: collect all resized patches and numeric
labels from the archives, fail like `np.stack` on an empty collection, append
the channel axis and apply the `uint8`/`int64` casts. -/
def create_tf_record (zips : List (List ZipEntry)) (labels : List String) :
    Except PyError Dataset := do
  let acc ← collectZips labels zips
  if acc.1.isEmpty then
    Except.error (PyError.valueError "need at least one array to stack")
  else
    Except.ok
      ⟨acc.1.map (fun img => addChannel (img.map (fun row => row.map toUint8))),
       acc.2.map toInt64⟩

theorem pyInt_of_nonneg {q : ℚ} (h : 0 ≤ q) : pyInt q = ⌊q⌋ :=
  if_pos h

theorem pyInt_natCast (n : ℕ) : pyInt (n : ℚ) = n := by
  rw [pyInt_of_nonneg (by exact_mod_cast Nat.zero_le n)]
  exact_mod_cast Int.floor_natCast n

theorem pySliceIdx_le (n : Nat) (i : Int) : pySliceIdx n i ≤ n := by
  unfold pySliceIdx
  split_ifs <;> omega

theorem pySliceIdx_eq_toNat {n : Nat} {i : Int} (h0 : 0 ≤ i) (h : i ≤ n) :
    pySliceIdx n i = i.toNat := by
  unfold pySliceIdx
  split_ifs <;> omega

theorem length_pySlice (l : List α) (a b : Int) :
    (pySlice l a b).length = pySliceIdx l.length b - pySliceIdx l.length a := by
  have hb := pySliceIdx_le l.length b
  unfold pySlice
  simp only [List.length_take, List.length_drop, inf_eq_min]
  omega

theorem length_pySlice_le (l : List α) {a b : Int} (hab : a ≤ b) :
    (pySlice l a b).length ≤ (b - a).toNat := by
  rw [length_pySlice]
  unfold pySliceIdx
  split_ifs <;> omega

theorem getElem?_pySlice_of_bounds (l : List α) {a b : Int} (h0 : 0 ≤ a)
    (hb : b ≤ l.length) (i : Nat) (hi : (i : Int) < b - a) :
    (pySlice l a b)[i]? = l[a.toNat + i]? := by
  have hab : a ≤ b := by omega
  unfold pySlice
  rw [pySliceIdx_eq_toNat h0 (by omega), pySliceIdx_eq_toNat (by omega) hb]
  rw [List.getElem?_take, if_pos (by omega), List.getElem?_drop]

theorem pySlice_sublist (l : List α) (a b : Int) : (pySlice l a b).Sublist l :=
  List.Sublist.trans (List.take_sublist _ _) (List.drop_sublist _ _)

theorem npShape2_fst {patch : List (List Int)} {s : Nat × Nat}
    (h : npShape2 patch = some s) : s.1 = patch.length := by
  cases patch with
  | nil => simp [npShape2] at h
  | cons r rs =>
    simp only [npShape2] at h
    split at h
    · cases h; rfl
    · cases h

theorem npShape2_of_rect {patch : List (List Int)} {s : Nat} (hpos : 0 < s)
    (hlen : patch.length = s) (hrows : ∀ row ∈ patch, row.length = s) :
    npShape2 patch = some (s, s) := by
  cases patch with
  | nil => simp at hlen; omega
  | cons r rs =>
    have hr : r.length = s := hrows r (by simp)
    have hall : rs.all (fun row => row.length = r.length) = true := by
      rw [List.all_eq_true]
      intro row hrow
      simp [hrows row (by simp [hrow]), hr]
    simp only [npShape2, hall, if_pos]
    simp only [List.length_cons] at hlen
    rw [hr, hlen]

theorem npShape2_ne_of_length {patch : List (List Int)} {s : Nat}
    (h : patch.length ≠ s) : npShape2 patch ≠ some (s, s) := by
  intro hc
  exact h (npShape2_fst hc).symm

theorem npShape2_snd {r : List Int} {rs : List (List Int)} {s : Nat × Nat}
    (h : npShape2 (r :: rs) = some s) : s.2 = r.length := by
  simp only [npShape2] at h
  split at h
  · cases h; rfl
  · cases h

theorem npShape2_ne_of_firstRow {r : List Int} {rs : List (List Int)} {s : Nat}
    (h : r.length ≠ s) : npShape2 (r :: rs) ≠ some (s, s) :=
  fun hc => h (npShape2_snd hc).symm

theorem pyIndex_natCast (l : List α) (n : Nat) : pyIndex l (n : Int) = l[n]? := by
  simp only [pyIndex]
  rw [if_neg (show ¬((n : Int) < 0) by omega)]
  rw [if_pos (show (0 : Int) ≤ n by omega)]
  rw [Int.toNat_natCast]

theorem pyIndex_mem {l : List α} {i : Int} {x : α} (h : pyIndex l i = some x) : x ∈ l := by
  simp only [pyIndex] at h
  split_ifs at h <;> first | exact List.getElem?_mem h | cases h

theorem get_image_patch_congr (layers : List ImageLayer) {c c' : ℚ × ℚ × ℚ}
    (shape : Nat) (h1 : pyInt c.1 = pyInt c'.1) (h2 : pyInt c.2.1 = pyInt c'.2.1)
    (h3 : pyInt c.2.2 = pyInt c'.2.2) :
    get_image_patch layers c shape = get_image_patch layers c' shape := by
  cases layers with
  | nil => rfl
  | cons layer rest => simp only [get_image_patch, h1, h2, h3]

/-- C5: pressing `.` moves the label state to the one with value
`(v + 1) % 5`, pressing `,` to the one with value `(v - 1) % 5`; the two keys
are mutually inverse, and five consecutive presses of either key restore the
original state. -/
theorem c5_label_cycling_mod5 (s : CellState) :
    (next_label s).map CellState.value = some ((s.value + 1) % 5) ∧
    (previous_label s).map CellState.value = some ((s.value - 1) % 5) ∧
    (next_label s).bind previous_label = some s ∧
    (previous_label s).bind next_label = some s ∧
    ((((next_label s).bind next_label).bind next_label).bind next_label).bind
      next_label = some s ∧
    ((((previous_label s).bind previous_label).bind previous_label).bind
      previous_label).bind previous_label = some s := by
  cases s <;> exact (by decide)

/-- C9: `get_image_patch` truncates each coordinate with `int()`, so on
non-negative (rational-valued) coordinates it agrees with the call at the
floored integer point; fractional coordinates are never interpolated or
rounded to nearest. -/
theorem c9_truncates_toward_zero (layers : List ImageLayer) (t y x : ℚ)
    (shape : Nat) (ht : 0 ≤ t) (hy : 0 ≤ y) (hx : 0 ≤ x) :
    get_image_patch layers (t, y, x) shape =
      get_image_patch layers ((⌊t⌋ : ℚ), (⌊y⌋ : ℚ), (⌊x⌋ : ℚ)) shape := by
  have cast : ∀ q : ℚ, 0 ≤ q → pyInt q = pyInt ((⌊q⌋ : ℚ)) := by
    intro q hq
    rw [pyInt_of_nonneg hq,
      pyInt_of_nonneg (by exact_mod_cast Int.floor_nonneg.mpr hq), Int.floor_intCast]
  exact get_image_patch_congr layers shape (cast t ht) (cast y hy) (cast x hx)

theorem get_image_patch_oob (layer : ImageLayer) (rest : List ImageLayer)
    (coords : ℚ × ℚ × ℚ) (shape H W : Nat) (image : List (List Int))
    (hs2 : shape % 2 = 0) (hpos : 0 < shape)
    (himg : pyIndex layer.data (pyInt coords.1) = some image)
    (hH : image.length = H) (hW : ∀ row ∈ image, row.length = W)
    (hy0 : 0 ≤ pyInt coords.2.1) (hyH : pyInt coords.2.1 < (H : Int))
    (hx0 : 0 ≤ pyInt coords.2.2) (hxW : pyInt coords.2.2 < (W : Int))
    (hout : pyInt coords.2.1 < ((shape / 2 : Nat) : Int) ∨
            (H : Int) < pyInt coords.2.1 + ((shape / 2 : Nat) : Int) ∨
            pyInt coords.2.2 < ((shape / 2 : Nat) : Int) ∨
            (W : Int) < pyInt coords.2.2 + ((shape / 2 : Nat) : Int)) :
    ∃ msg, get_image_patch (layer :: rest) coords shape =
      Except.error (PyError.valueError msg) := by
  simp only [get_image_patch, himg]
  set yi := pyInt coords.2.1 with hyi
  set xi := pyInt coords.2.2 with hxi
  set pad : Nat := shape / 2 with hpad
  set rows := pySlice image (yi - pad) (yi + pad) with hrows
  set patch := rows.map (fun row => pySlice row (xi - pad) (xi + pad)) with hpatchdef
  have hrlen : rows.length = pySliceIdx H (yi + pad) - pySliceIdx H (yi - pad) := by
    rw [hrows, length_pySlice, hH]
  by_cases hyout : yi < (pad : Int) ∨ (H : Int) < yi + pad
  · have hwrong : rows.length ≠ shape := by
      rw [hrlen]
      unfold pySliceIdx
      split_ifs <;> omega
    have hne : npShape2 patch ≠ some (shape, shape) := by
      refine npShape2_ne_of_length ?_
      rw [hpatchdef, List.length_map]
      exact hwrong
    rw [if_neg hne]
    exact ⟨_, rfl⟩
  · push_neg at hyout
    obtain ⟨hy1, hy2⟩ := hyout
    have hrows_len : rows.length = shape := by
      rw [hrlen, pySliceIdx_eq_toNat (by omega) (by omega),
        pySliceIdx_eq_toNat (by omega) (by omega)]
      omega
    obtain ⟨r, rs, hcons⟩ : ∃ r rs, patch = r :: rs := by
      rw [hpatchdef]
      cases hrc : rows with
      | nil => rw [hrc] at hrows_len; simp at hrows_len; omega
      | cons a as => exact ⟨_, _, by rw [List.map_cons]⟩
    have h0 : patch[0]? = some r := by rw [hcons]; exact List.getElem?_cons_zero
    have h0' : rows[0]? = image[(yi - (pad : Int)).toNat + 0]? := by
      rw [hrows]
      exact getElem?_pySlice_of_bounds image (by omega) (by omega) 0 (by push_cast; omega)
    have hidx : (yi - (pad : Int)).toNat + 0 < image.length := by rw [hH]; omega
    obtain ⟨row0, hrow0⟩ : ∃ row0, image[(yi - (pad : Int)).toNat + 0]? = some row0 :=
      ⟨_, List.getElem?_eq_getElem hidx⟩
    have hr_eq : r = pySlice row0 (xi - pad) (xi + pad) := by
      have hpm : patch[0]? = some (pySlice row0 (xi - pad) (xi + pad)) := by
        rw [hpatchdef, List.getElem?_map, h0', hrow0]
        rfl
      rw [h0] at hpm
      exact Option.some.inj hpm
    have hrow0W : row0.length = W := hW row0 (List.getElem?_mem hrow0)
    have hfr : r.length ≠ shape := by
      rw [hr_eq, length_pySlice, hrow0W]
      unfold pySliceIdx
      split_ifs <;> omega
    have hne : npShape2 patch ≠ some (shape, shape) := by
      rw [hcons]
      exact npShape2_ne_of_firstRow hfr
    rw [if_neg hne]
    exact ⟨_, rfl⟩

/-- A concrete one-frame 4×4 movie used to instantiate the theorems. -/
def testMovie : List (List (List Int)) :=
  [[[1, 2, 3, 4], [5, 6, 7, 8], [9, 10, 11, 12], [13, 14, 15, 16]]]

/-- A concrete visible image layer holding `testMovie`. -/
def testLayer : ImageLayer :=
  ⟨"GFP", testMovie, [("filename", "../MDCK_H2B_GFP_movie.tif")], true⟩

/-- C8 (amended): whenever the layer list is non-empty and the truncated frame
index resolves to a frame of the movie, an odd patch size `shape` makes
`get_image_patch` raise `ValueError` for every y/x coordinate — even with the
crop window fully inside the frame — since the crop it builds can have at most
`2 * (shape / 2) = shape - 1` rows. -/
theorem c8_odd_shape_always_value_error (layer : ImageLayer) (rest : List ImageLayer)
    (coords : ℚ × ℚ × ℚ) (shape : Nat) (hodd : shape % 2 = 1)
    (image : List (List Int))
    (himg : pyIndex layer.data (pyInt coords.1) = some image) :
    ∃ msg, get_image_patch (layer :: rest) coords shape =
      Except.error (PyError.valueError msg) := by
  simp only [get_image_patch, himg]
  set pad : Nat := shape / 2 with hpad
  set yi := pyInt coords.2.1 with hyi
  set xi := pyInt coords.2.2 with hxi
  have hlen : ((pySlice image (yi - pad) (yi + pad)).map
      (fun row => pySlice row (xi - pad) (xi + pad))).length ≠ shape := by
    rw [List.length_map]
    have hle := length_pySlice_le image (a := yi - pad) (b := yi + pad) (by omega)
    omega
  rw [if_neg (npShape2_ne_of_length hlen)]
  exact ⟨_, rfl⟩

/-- C8 as literally stated is false: with the odd patch size 3 but a frame
index beyond the one-frame movie, `get_image_patch` raises `IndexError`, not
`ValueError`. -/
theorem c8_counterexample_frame_index :
    get_image_patch [testLayer] ((5 : ℚ), (1 : ℚ), (1 : ℚ)) 3 =
      Except.error PyError.indexError ∧
    ∀ msg, get_image_patch [testLayer] ((5 : ℚ), (1 : ℚ), (1 : ℚ)) 3 ≠
      Except.error (PyError.valueError msg) := by
  refine ⟨by rfl, fun msg h => ?_⟩
  rw [show get_image_patch [testLayer] ((5 : ℚ), (1 : ℚ), (1 : ℚ)) 3 =
    Except.error PyError.indexError from rfl] at h
  exact PyError.noConfusion (Except.error.inj h)

theorem c8_odd_shape_witness :
    ∃ msg, get_image_patch [testLayer] ((0 : ℚ), (2 : ℚ), (2 : ℚ)) 3 =
      Except.error (PyError.valueError msg) :=
  c8_odd_shape_always_value_error testLayer [] ((0 : ℚ), (2 : ℚ), (2 : ℚ)) 3 (by decide)
    [[1, 2, 3, 4], [5, 6, 7, 8], [9, 10, 11, 12], [13, 14, 15, 16]] (by rfl)

theorem length_pySlice_nat (l : List α) (a b : Nat) (hab : a ≤ b) (hb : b ≤ l.length) :
    (pySlice l (a : Int) (b : Int)).length = b - a := by
  rw [length_pySlice, pySliceIdx_eq_toNat (by omega) (by omega),
    pySliceIdx_eq_toNat (by omega) (by omega)]
  omega

theorem getElem?_pySlice_nat (l : List α) (a b : Nat) (hb : b ≤ l.length)
    (i : Nat) (hi : i < b - a) :
    (pySlice l (a : Int) (b : Int))[i]? = l[a + i]? := by
  have h := getElem?_pySlice_of_bounds l (a := (a : Int)) (b := (b : Int))
    (by omega) (by omega) i (by omega)
  rw [Int.toNat_natCast] at h
  exact h

theorem pixelAt_eq (img : List (List Int)) (i j : Nat) :
    pixelAt img i j = ((img[i]?.getD [])[j]?).getD 0 := by
  unfold pixelAt
  rw [List.getD_eq_getElem?_getD, List.getD_eq_getElem?_getD]

/-- C2 (amended): for a rectangular movie, integer in-bounds coordinates and
an even patch size `shape > 0` whose crop window lies inside the frame,
`get_image_patch` returns a `(shape, shape)` patch whose element `(i, j)` is
the frame pixel at row `y - shape / 2 + i`, column `x - shape / 2 + j`. -/
theorem c2_even_patch_is_centered_crop (layer : ImageLayer) (rest : List ImageLayer)
    (t y x shape H W : Nat) (hs2 : shape % 2 = 0) (hpos : 0 < shape)
    (hrect : ∀ frame ∈ layer.data, frame.length = H ∧ ∀ row ∈ frame, row.length = W)
    (ht : t < layer.data.length)
    (hy1 : shape / 2 ≤ y) (hy2 : y + shape / 2 ≤ H)
    (hx1 : shape / 2 ≤ x) (hx2 : x + shape / 2 ≤ W) :
    ∃ patch,
      get_image_patch (layer :: rest) ((t : ℚ), (y : ℚ), (x : ℚ)) shape =
        Except.ok patch ∧
      patch.length = shape ∧ (∀ row ∈ patch, row.length = shape) ∧
      ∀ i j, i < shape → j < shape →
        pixelAt patch i j =
          pixelAt (layer.data.getD t []) (y - shape / 2 + i) (x - shape / 2 + j) := by
  set pad : Nat := shape / 2 with hpad
  obtain ⟨image, himg⟩ : ∃ image, layer.data[t]? = some image :=
    ⟨_, List.getElem?_eq_getElem ht⟩
  obtain ⟨hHl, hWl⟩ := hrect image (List.getElem?_mem himg)
  have hpy : pyIndex layer.data ((t : ℕ) : Int) = some image := by
    rw [pyIndex_natCast]
    exact himg
  have hyc1 : (y : Int) - pad = ((y - pad : Nat) : Int) := by omega
  have hyc2 : (y : Int) + pad = ((y + pad : Nat) : Int) := by omega
  have hxc1 : (x : Int) - pad = ((x - pad : Nat) : Int) := by omega
  have hxc2 : (x : Int) + pad = ((x + pad : Nat) : Int) := by omega
  simp only [get_image_patch, hpy, pyInt_natCast, hyc1, hyc2, hxc1, hxc2]
  set rows := pySlice image ((y - pad : Nat) : Int) ((y + pad : Nat) : Int) with hrows
  set f := fun row => pySlice row ((x - pad : Nat) : Int) ((x + pad : Nat) : Int) with hf
  set patch := rows.map f with hpatchdef
  have hrows_len : rows.length = shape := by
    rw [hrows, length_pySlice_nat image _ _ (by omega) (by omega)]
    omega
  have hrows_get : ∀ i, i < shape → ∃ row0,
      image[(y - pad) + i]? = some row0 ∧ rows[i]? = some row0 ∧ row0.length = W := by
    intro i hi
    have hb : (y - pad) + i < image.length := by omega
    obtain ⟨row0, hrow0⟩ : ∃ row0, image[(y - pad) + i]? = some row0 :=
      ⟨_, List.getElem?_eq_getElem hb⟩
    refine ⟨row0, hrow0, ?_, hWl row0 (List.getElem?_mem hrow0)⟩
    rw [hrows, getElem?_pySlice_nat image _ _ (by omega) i (by omega)]
    exact hrow0
  have hpatch_len : patch.length = shape := by
    rw [hpatchdef, List.length_map]
    exact hrows_len
  have hpatch_rows : ∀ row ∈ patch, row.length = shape := by
    intro row hrow
    rw [hpatchdef] at hrow
    obtain ⟨row0, hrow0m, hrow0e⟩ := List.mem_map.mp hrow
    have hW0 : row0.length = W :=
      hWl row0 ((pySlice_sublist image _ _).mem hrow0m)
    rw [← hrow0e, hf]
    simp only
    rw [length_pySlice_nat row0 _ _ (by omega) (by omega)]
    omega
  have hok : npShape2 patch = some (shape, shape) :=
    npShape2_of_rect hpos hpatch_len hpatch_rows
  rw [if_pos hok]
  refine ⟨patch, rfl, hpatch_len, hpatch_rows, ?_⟩
  intro i j hi hj
  obtain ⟨row0, hrow0, hrowsi, hW0⟩ := hrows_get i hi
  have hpatchi : patch[i]? = some (f row0) := by
    rw [hpatchdef, List.getElem?_map, hrowsi]
    rfl
  have hframe : layer.data.getD t [] = image := by
    rw [List.getD_eq_getElem?_getD, himg]
    rfl
  rw [pixelAt_eq, pixelAt_eq, hpatchi, hframe, hrow0]
  simp only [Option.getD_some]
  rw [hf]
  simp only
  rw [getElem?_pySlice_nat row0 _ _ (by omega) j (by omega)]

/-- C2 is false as literally stated for the even patch size 0: the crop window
lies (trivially) inside the frame, yet the crop is `np.array([])` of numpy
shape `(0,)`, so `get_image_patch` raises `ValueError` instead of returning a
`(0, 0)` patch. -/
theorem c2_counterexample_shape_zero :
    get_image_patch [testLayer] ((0 : ℚ), (1 : ℚ), (1 : ℚ)) 0 =
      Except.error
        (PyError.valueError "Image patch does not have correct shape: (0,)") := by
  rfl

theorem c2_witness :
    ∃ patch,
      get_image_patch [testLayer] (((0 : ℕ) : ℚ), ((1 : ℕ) : ℚ), ((1 : ℕ) : ℚ)) 2 =
        Except.ok patch ∧
      patch.length = 2 ∧ (∀ row ∈ patch, row.length = 2) ∧
      ∀ i j, i < 2 → j < 2 →
        pixelAt patch i j =
          pixelAt (testLayer.data.getD 0 []) (1 - 2 / 2 + i) (1 - 2 / 2 + j) :=
  c2_even_patch_is_centered_crop testLayer [] 0 1 1 2 4 4 (by decide) (by decide)
    (by decide) (by decide) (by decide) (by decide) (by decide) (by decide)

theorem exportLoop_entries_tiff (sessionTime : String) (imageLayers : List ImageLayer)
    (shape : Nat) :
    ∀ (ps : List AnnPoint) (idx : Nat),
      ∀ e ∈ (exportLoop sessionTime imageLayers shape idx ps).1,
        ∃ q, e.content = ZipContent.tiff q := by
  intro ps
  induction ps with
  | nil =>
    intro idx e he
    simp [exportLoop] at he
  | cons p ps ih =>
    intro idx e he
    simp only [exportLoop] at he
    cases hg : get_image_patch imageLayers p.coords shape with
    | error err =>
      rw [hg] at he
      simp at he
    | ok patch =>
      rw [hg] at he
      simp only [List.mem_cons] at he
      rcases he with he | he
      · exact ⟨patch, by rw [he]⟩
      · exact ih (idx + 1) e he

theorem exportLoop_isSome_of_mem_error (sessionTime : String)
    (imageLayers : List ImageLayer) (shape : Nat) :
    ∀ (ps : List AnnPoint) (idx : Nat) (p : AnnPoint), p ∈ ps →
      (∃ err, get_image_patch imageLayers p.coords shape = Except.error err) →
      (exportLoop sessionTime imageLayers shape idx ps).2.isSome := by
  intro ps
  induction ps with
  | nil =>
    intro idx p hp
    simp at hp
  | cons q qs ih =>
    intro idx p hp herr
    simp only [exportLoop]
    cases hg : get_image_patch imageLayers q.coords shape with
    | error err => rfl
    | ok patch =>
      simp only
      rcases List.mem_cons.mp hp with rfl | hmem
      · obtain ⟨err, he⟩ := herr
        rw [hg] at he
        cases he
      · exact ih (idx + 1) p hmem herr

theorem cnn_annotation_widget_of_loop_error (sessionTime : String)
    (imageLayers : List ImageLayer) (points : List AnnPoint) (shape : Nat)
    (uvl : Bool)
    (h : (exportLoop sessionTime imageLayers shape 0 points).2.isSome) :
    (cnn_annotation_widget sessionTime imageLayers points shape uvl).exportError.isSome ∧
    (cnn_annotation_widget sessionTime imageLayers points shape uvl).entries =
      (exportLoop sessionTime imageLayers shape 0 points).1 := by
  unfold cnn_annotation_widget
  dsimp only
  split
  · exact ⟨rfl, rfl⟩
  · next heq => rw [heq] at h; cases h

/-- C1: if the crop for some annotated point (with in-bounds truncated
coordinates) would exceed the frame bounds, `get_image_patch` raises a
`ValueError` with a descriptive message, the export of the session aborts
with that exception, and no JSON entry is written to the zip — every entry
actually written is a TIFF patch. -/
theorem c1_boundary_crop_aborts_export (sessionTime : String) (layer : ImageLayer)
    (rest : List ImageLayer) (points : List AnnPoint) (p : AnnPoint) (hp : p ∈ points)
    (shape H W : Nat) (uvl : Bool) (hs2 : shape % 2 = 0) (hpos : 0 < shape)
    (image : List (List Int))
    (himg : pyIndex layer.data (pyInt p.coords.1) = some image)
    (hH : image.length = H) (hW : ∀ row ∈ image, row.length = W)
    (hy0 : 0 ≤ pyInt p.coords.2.1) (hyH : pyInt p.coords.2.1 < (H : Int))
    (hx0 : 0 ≤ pyInt p.coords.2.2) (hxW : pyInt p.coords.2.2 < (W : Int))
    (hout : pyInt p.coords.2.1 < ((shape / 2 : Nat) : Int) ∨
            (H : Int) < pyInt p.coords.2.1 + ((shape / 2 : Nat) : Int) ∨
            pyInt p.coords.2.2 < ((shape / 2 : Nat) : Int) ∨
            (W : Int) < pyInt p.coords.2.2 + ((shape / 2 : Nat) : Int)) :
    (∃ msg, get_image_patch (layer :: rest) p.coords shape =
      Except.error (PyError.valueError msg)) ∧
    (cnn_annotation_widget sessionTime (layer :: rest) points shape uvl).exportError.isSome ∧
    ∀ e ∈ (cnn_annotation_widget sessionTime (layer :: rest) points shape uvl).entries,
      ∃ q, e.content = ZipContent.tiff q := by
  have herr := get_image_patch_oob layer rest p.coords shape H W image hs2 hpos himg
    hH hW hy0 hyH hx0 hxW hout
  have hloop : (exportLoop sessionTime (layer :: rest) shape 0 points).2.isSome := by
    obtain ⟨msg, hm⟩ := herr
    exact exportLoop_isSome_of_mem_error sessionTime (layer :: rest) shape points 0 p hp
      ⟨PyError.valueError msg, hm⟩
  obtain ⟨hsome, hent⟩ :=
    cnn_annotation_widget_of_loop_error sessionTime (layer :: rest) points shape uvl hloop
  refine ⟨herr, hsome, ?_⟩
  rw [hent]
  exact exportLoop_entries_tiff sessionTime (layer :: rest) shape points 0

/-- A point whose 4×4-sized crop exceeds the top frame boundary of
`testMovie`. -/
def testPointOOB : AnnPoint :=
  ⟨((0 : ℚ), (0 : ℚ), (2 : ℚ)), "Interphase"⟩

theorem c1_witness :
    (∃ msg, get_image_patch [testLayer] testPointOOB.coords 4 =
      Except.error (PyError.valueError msg)) ∧
    (cnn_annotation_widget "T" [testLayer] [testPointOOB] 4 true).exportError.isSome ∧
    ∀ e ∈ (cnn_annotation_widget "T" [testLayer] [testPointOOB] 4 true).entries,
      ∃ q, e.content = ZipContent.tiff q :=
  c1_boundary_crop_aborts_export "T" testLayer [] [testPointOOB] testPointOOB
    (by decide) 4 4 4 true (by decide) (by decide)
    [[1, 2, 3, 4], [5, 6, 7, 8], [9, 10, 11, 12], [13, 14, 15, 16]]
    (by rfl) (by rfl) (by decide) (by decide) (by decide) (by decide) (by decide)
    (by decide)

theorem pyDictInsert_of_not_mem {d : List (String × JVal)} {k : String} (v : JVal)
    (h : ∀ kv ∈ d, kv.1 ≠ k) : pyDictInsert d k v = d ++ [(k, v)] := by
  unfold pyDictInsert
  rw [if_neg]
  intro hc
  obtain ⟨x, hx, hbeq⟩ := List.any_eq_true.mp hc
  exact h x hx (by simpa using hbeq)

theorem foldLayers_eq (uvl : Bool) :
    ∀ (layers : List ImageLayer) (d : List (String × JVal)),
      (∀ l ∈ layers, ∀ kv ∈ d, kv.1 ≠ l.name) →
      (layers.map ImageLayer.name).Nodup →
      (layers.foldl
        (fun d layer =>
          if uvl && layer.visible then pyDictInsert d layer.name (JVal.meta layer.metadata)
          else d) d) =
        d ++ (layers.filter (fun l => uvl && l.visible)).map
          (fun l => (l.name, JVal.meta l.metadata)) := by
  intro layers
  induction layers with
  | nil => intro d _ _; simp
  | cons l ls ih =>
    intro d hmem hnodup
    simp only [List.foldl_cons, List.filter_cons]
    simp only [List.map_cons, List.nodup_cons] at hnodup
    by_cases hv : (uvl && l.visible) = true
    · rw [if_pos hv, if_pos hv]
      rw [pyDictInsert_of_not_mem _ (hmem l (by simp))]
      rw [ih (d ++ [(l.name, JVal.meta l.metadata)])
        (by
          intro l' hl' kv hkv
          rcases List.mem_append.mp hkv with hkv | hkv
          · exact hmem l' (List.mem_cons_of_mem _ hl') kv hkv
          · simp only [List.mem_singleton] at hkv
            subst hkv
            intro hc
            simp only at hc
            exact hnodup.1 (hc ▸ List.mem_map_of_mem ImageLayer.name hl')) hnodup.2]
      simp
    · rw [if_neg hv, if_neg hv]
      exact ih d (fun l' hl' => hmem l' (List.mem_cons_of_mem _ hl')) hnodup.2

theorem buildExportData_true_eq (shape : Nat) (imageLayers : List ImageLayer)
    (points : List AnnPoint)
    (hnodup : (imageLayers.map ImageLayer.name).Nodup)
    (hres : ∀ l ∈ imageLayers,
      l.name ∉ (["shape", "coords-0", "coords-1", "coords-2", "labels"] : List String)) :
    buildExportData shape true imageLayers points =
      ([("shape", JVal.nat shape)] ++
        (imageLayers.filter (fun l => true && l.visible)).map
          (fun l => (l.name, JVal.meta l.metadata))) ++
      [("coords-0", JVal.nums (points.map (fun p => coordAt 0 p.coords))),
       ("coords-1", JVal.nums (points.map (fun p => coordAt 1 p.coords))),
       ("coords-2", JVal.nums (points.map (fun p => coordAt 2 p.coords))),
       ("labels", JVal.strs (points.map (fun p => p.state)))] := by
  unfold buildExportData
  dsimp only
  rw [foldLayers_eq true imageLayers [("shape", JVal.nat shape)]
    (by
      intro l hl kv hkv
      simp only [List.mem_singleton] at hkv
      subst hkv
      dsimp only
      intro hc
      exact hres l hl (hc ▸ (by decide : "shape" ∈
        (["shape", "coords-0", "coords-1", "coords-2", "labels"] : List String)))) hnodup]
  set dL := [("shape", JVal.nat shape)] ++
    (imageLayers.filter (fun l => true && l.visible)).map
      (fun l => (l.name, JVal.meta l.metadata)) with hdL
  have hfresh : ∀ k, k ∈ (["coords-0", "coords-1", "coords-2", "labels"] : List String) →
      ∀ kv ∈ dL, kv.1 ≠ k := by
    intro k hk kv hkv
    rw [hdL] at hkv
    rcases List.mem_append.mp hkv with hkv | hkv
    · simp only [List.mem_singleton] at hkv
      subst hkv
      dsimp only
      intro hc
      rw [← hc] at hk
      exact absurd hk (by decide)
    · obtain ⟨l, hl, rfl⟩ := List.mem_map.mp hkv
      dsimp only
      intro hc
      refine hres l (List.mem_of_mem_filter hl) ?_
      rw [hc]
      simp only [List.mem_cons, List.mem_singleton] at hk ⊢
      tauto
  set v0 := JVal.nums (points.map (fun p => coordAt 0 p.coords)) with hv0
  set v1 := JVal.nums (points.map (fun p => coordAt 1 p.coords)) with hv1
  set v2 := JVal.nums (points.map (fun p => coordAt 2 p.coords)) with hv2
  set vL := JVal.strs (points.map (fun p => p.state)) with hvL
  have h3 : List.range 3 = [0, 1, 2] := rfl
  rw [h3]
  simp only [List.foldl_cons, List.foldl_nil]
  rw [show ("coords-" ++ toString (0 : Nat)) = "coords-0" from rfl,
    show ("coords-" ++ toString (1 : Nat)) = "coords-1" from rfl,
    show ("coords-" ++ toString (2 : Nat)) = "coords-2" from rfl]
  have i0 : pyDictInsert dL "coords-0" v0 = dL ++ [("coords-0", v0)] :=
    pyDictInsert_of_not_mem _ (hfresh "coords-0" (by decide))
  have f1 : ∀ kv ∈ dL ++ [("coords-0", v0)], kv.1 ≠ "coords-1" := by
    intro kv hkv
    rcases List.mem_append.mp hkv with hkv | hkv
    · exact hfresh "coords-1" (by decide) kv hkv
    · simp only [List.mem_singleton] at hkv
      subst hkv
      dsimp only
      decide
  have i1 : pyDictInsert (dL ++ [("coords-0", v0)]) "coords-1" v1 =
      dL ++ [("coords-0", v0), ("coords-1", v1)] := by
    rw [pyDictInsert_of_not_mem _ f1, List.append_assoc]
    rfl
  have f2 : ∀ kv ∈ dL ++ [("coords-0", v0), ("coords-1", v1)], kv.1 ≠ "coords-2" := by
    intro kv hkv
    rcases List.mem_append.mp hkv with hkv | hkv
    · exact hfresh "coords-2" (by decide) kv hkv
    · rcases List.mem_cons.mp hkv with hkv | hkv
      · subst hkv; dsimp only; decide
      · simp only [List.mem_singleton] at hkv
        subst hkv
        dsimp only
        decide
  have i2 : pyDictInsert (dL ++ [("coords-0", v0), ("coords-1", v1)]) "coords-2" v2 =
      dL ++ [("coords-0", v0), ("coords-1", v1), ("coords-2", v2)] := by
    rw [pyDictInsert_of_not_mem _ f2, List.append_assoc]
    rfl
  have fL : ∀ kv ∈ dL ++ [("coords-0", v0), ("coords-1", v1), ("coords-2", v2)],
      kv.1 ≠ "labels" := by
    intro kv hkv
    rcases List.mem_append.mp hkv with hkv | hkv
    · exact hfresh "labels" (by decide) kv hkv
    · rcases List.mem_cons.mp hkv with hkv | hkv
      · subst hkv; dsimp only; decide
      · rcases List.mem_cons.mp hkv with hkv | hkv
        · subst hkv; dsimp only; decide
        · simp only [List.mem_singleton] at hkv
          subst hkv
          dsimp only
          decide
  have iL : pyDictInsert (dL ++ [("coords-0", v0), ("coords-1", v1), ("coords-2", v2)])
      "labels" vL =
      dL ++ [("coords-0", v0), ("coords-1", v1), ("coords-2", v2), ("labels", vL)] := by
    rw [pyDictInsert_of_not_mem _ fL, List.append_assoc]
    rfl
  rw [i0, i1, i2, iL]

theorem exportLoop_ok_names (sessionTime : String) (imageLayers : List ImageLayer)
    (shape : Nat) :
    ∀ (ps : List AnnPoint) (idx : Nat),
      (exportLoop sessionTime imageLayers shape idx ps).2 = none →
      (exportLoop sessionTime imageLayers shape idx ps).1.map ZipEntry.name =
        (enumFrom idx ps).map (fun kp => patchFileName sessionTime kp.1 kp.2.state) := by
  intro ps
  induction ps with
  | nil => intro idx _; rfl
  | cons p ps ih =>
    intro idx hok
    simp only [exportLoop] at hok ⊢
    cases hg : get_image_patch imageLayers p.coords shape with
    | error err =>
      rw [hg] at hok
      cases hok
    | ok patch =>
      rw [hg] at hok
      dsimp only at hok ⊢
      simp only [List.map_cons, enumFrom]
      exact congrArg (patchFileName sessionTime idx p.state :: ·) (ih (idx + 1) hok)

theorem exportLoop_ok_mem (sessionTime : String) (imageLayers : List ImageLayer)
    (shape : Nat) :
    ∀ (ps : List AnnPoint) (idx : Nat),
      (exportLoop sessionTime imageLayers shape idx ps).2 = none →
      ∀ (k : Nat) (pk : AnnPoint), ps[k]? = some pk →
        ∃ patch, get_image_patch imageLayers pk.coords shape = Except.ok patch ∧
          (⟨patchFileName sessionTime (idx + k) pk.state, ZipContent.tiff patch⟩ : ZipEntry) ∈
            (exportLoop sessionTime imageLayers shape idx ps).1 := by
  intro ps
  induction ps with
  | nil =>
    intro idx _ k pk hk
    simp at hk
  | cons p ps ih =>
    intro idx hok k pk hk
    simp only [exportLoop] at hok ⊢
    cases hg : get_image_patch imageLayers p.coords shape with
    | error err =>
      rw [hg] at hok
      cases hok
    | ok patch =>
      rw [hg] at hok
      dsimp only at hok ⊢
      cases k with
      | zero =>
        rw [List.getElem?_cons_zero] at hk
        cases hk
        exact ⟨patch, hg, by simp⟩
      | succ k =>
        rw [List.getElem?_cons_succ] at hk
        obtain ⟨patch', hp', hmem⟩ := ih (idx + 1) hok k pk hk
        refine ⟨patch', hp', ?_⟩
        rw [show idx + (k + 1) = (idx + 1) + k by omega]
        exact List.mem_cons_of_mem _ hmem

theorem cnn_annotation_widget_zipName (sessionTime : String)
    (imageLayers : List ImageLayer) (points : List AnnPoint) (shape : Nat)
    (uvl : Bool) :
    (cnn_annotation_widget sessionTime imageLayers points shape uvl).zipName =
      "annotation_" ++ sessionTime ++ ".zip" := by
  unfold cnn_annotation_widget
  dsimp only
  split <;> rfl

theorem cnn_annotation_widget_ok (sessionTime : String)
    (imageLayers : List ImageLayer) (points : List AnnPoint) (shape : Nat)
    (uvl : Bool)
    (h : (cnn_annotation_widget sessionTime imageLayers points shape uvl).exportError =
      none) :
    (exportLoop sessionTime imageLayers shape 0 points).2 = none ∧
    (cnn_annotation_widget sessionTime imageLayers points shape uvl).entries =
      (exportLoop sessionTime imageLayers shape 0 points).1 ++
        [⟨"annotation_" ++ sessionTime ++ ".json",
          ZipContent.json (buildExportData shape uvl imageLayers points)⟩] := by
  unfold cnn_annotation_widget at h ⊢
  dsimp only at h ⊢
  split at h
  · next e heq => cases h
  · next heq =>
    rw [heq]
    exact ⟨rfl, rfl⟩

/-- C6 (amended): a successful export with the `use_visible_layers` option
enabled (its default) writes `annotation_<timestamp>.zip` holding exactly one
TIFF entry per point, named `<Label>/<Label>_<timestamp>_<index>.tif` with the
index the point's position, followed by one JSON entry
`annotation_<timestamp>.json` whose keys are `shape`, one metadata entry per
visible image layer, `coords-0`/`coords-1`/`coords-2`, and `labels`, the list
of the points' label names in point order.  (With the option disabled the
per-layer metadata entries are omitted.) -/
theorem c6_export_zip_structure (sessionTime : String) (imageLayers : List ImageLayer)
    (points : List AnnPoint) (shape : Nat)
    (hnodup : (imageLayers.map ImageLayer.name).Nodup)
    (hres : ∀ l ∈ imageLayers,
      l.name ∉ (["shape", "coords-0", "coords-1", "coords-2", "labels"] : List String))
    (hok : (cnn_annotation_widget sessionTime imageLayers points shape true).exportError =
      none) :
    (cnn_annotation_widget sessionTime imageLayers points shape true).zipName =
      "annotation_" ++ sessionTime ++ ".zip" ∧
    ∃ tiffEntries doc,
      (cnn_annotation_widget sessionTime imageLayers points shape true).entries =
        tiffEntries ++ [⟨"annotation_" ++ sessionTime ++ ".json", ZipContent.json doc⟩] ∧
      tiffEntries.map ZipEntry.name =
        (enumFrom 0 points).map (fun kp => patchFileName sessionTime kp.1 kp.2.state) ∧
      (∀ e ∈ tiffEntries, ∃ q, e.content = ZipContent.tiff q) ∧
      doc.map Prod.fst =
        ["shape"] ++ (imageLayers.filter (fun l => l.visible)).map ImageLayer.name ++
          ["coords-0", "coords-1", "coords-2", "labels"] ∧
      ("shape", JVal.nat shape) ∈ doc ∧
      ("labels", JVal.strs (points.map (fun p => p.state))) ∈ doc := by
  obtain ⟨hloop, hent⟩ :=
    cnn_annotation_widget_ok sessionTime imageLayers points shape true hok
  refine ⟨cnn_annotation_widget_zipName sessionTime imageLayers points shape true, ?_⟩
  refine ⟨(exportLoop sessionTime imageLayers shape 0 points).1,
    buildExportData shape true imageLayers points, hent,
    exportLoop_ok_names sessionTime imageLayers shape points 0 hloop,
    exportLoop_entries_tiff sessionTime imageLayers shape points 0, ?_, ?_, ?_⟩
  · rw [buildExportData_true_eq shape imageLayers points hnodup hres]
    simp [List.map_append, List.map_map, Function.comp, Bool.true_and]
  · rw [buildExportData_true_eq shape imageLayers points hnodup hres]
    simp
  · rw [buildExportData_true_eq shape imageLayers points hnodup hres]
    simp

/-- A point whose 2×2-sized crop lies fully inside `testMovie`. -/
def testPointIn : AnnPoint :=
  ⟨((0 : ℚ), (1 : ℚ), (1 : ℚ)), "Interphase"⟩

/-- C6 as literally stated is false: with the widget's `use_visible_layers`
checkbox cleared, a successful export writes a JSON log with no metadata
entry for the visible image layer `GFP`. -/
theorem c6_counterexample_metadata_dropped :
    testLayer.visible = true ∧
    cnn_annotation_widget "T" [testLayer] [testPointIn] 2 false =
      ⟨"annotation_T.zip",
       [⟨"Interphase/Interphase_T_0.tif", ZipContent.tiff [[1, 2], [5, 6]]⟩,
        ⟨"annotation_T.json",
         ZipContent.json
           [("shape", JVal.nat 2),
            ("coords-0", JVal.nums [0]),
            ("coords-1", JVal.nums [1]),
            ("coords-2", JVal.nums [1]),
            ("labels", JVal.strs ["Interphase"])]⟩],
       none⟩ := by
  exact ⟨rfl, by rfl⟩

theorem c6_witness :
    (cnn_annotation_widget "T" [testLayer] [testPointIn] 2 true).zipName =
      "annotation_" ++ "T" ++ ".zip" ∧
    ∃ tiffEntries doc,
      (cnn_annotation_widget "T" [testLayer] [testPointIn] 2 true).entries =
        tiffEntries ++ [⟨"annotation_" ++ "T" ++ ".json", ZipContent.json doc⟩] ∧
      tiffEntries.map ZipEntry.name =
        (enumFrom 0 [testPointIn]).map (fun kp => patchFileName "T" kp.1 kp.2.state) ∧
      (∀ e ∈ tiffEntries, ∃ q, e.content = ZipContent.tiff q) ∧
      doc.map Prod.fst =
        ["shape"] ++ ([testLayer].filter (fun l => l.visible)).map ImageLayer.name ++
          ["coords-0", "coords-1", "coords-2", "labels"] ∧
      ("shape", JVal.nat 2) ∈ doc ∧
      ("labels", JVal.strs ([testPointIn].map (fun p => p.state))) ∈ doc :=
  c6_export_zip_structure "T" [testLayer] [testPointIn] 2 (by decide) (by decide) (by rfl)

/-- The rational 1/2, given in normal form so that it evaluates. -/
def qHalf : ℚ := ⟨1, 2, by decide, by decide⟩

theorem c9_witness :
    get_image_patch [testLayer] (qHalf, (1 : ℚ), (1 : ℚ)) 2 =
      get_image_patch [testLayer]
        ((⌊qHalf⌋ : ℚ), ((⌊(1 : ℚ)⌋ : ℤ) : ℚ), ((⌊(1 : ℚ)⌋ : ℤ) : ℚ)) 2 :=
  c9_truncates_toward_zero [testLayer] qHalf 1 1 2 (by decide) (by norm_num) (by norm_num)

theorem toUint8_range (v : Int) : 0 ≤ toUint8 v ∧ toUint8 v < 256 := by
  unfold toUint8
  omega

theorem toInt64_range (v : Int) : -(2 ^ 63) ≤ toInt64 v ∧ toInt64 v < 2 ^ 63 := by
  unfold toInt64
  omega

theorem toInt64_small {v : Int} (h1 : 0 ≤ v) (h2 : v < 2 ^ 63) : toInt64 v = v := by
  unfold toInt64
  omega

theorem resize64_length (img : List (List Int)) : (resize64 img).length = 64 := by
  simp [resize64]

theorem resize64_rows (img : List (List Int)) :
    ∀ row ∈ resize64 img, row.length = 64 := by
  intro row hrow
  simp only [resize64, List.mem_map] at hrow
  obtain ⟨i, _, rfl⟩ := hrow
  simp

theorem mapE_length (g : α → Except PyError β) :
    ∀ {l : List α} {ys : List β}, mapE g l = Except.ok ys → ys.length = l.length := by
  intro l
  induction l with
  | nil =>
    intro ys h
    simp only [mapE] at h
    cases h
    rfl
  | cons a as ih =>
    intro ys h
    simp only [mapE] at h
    cases hg : g a with
    | error e => rw [hg] at h; cases h
    | ok b =>
      rw [hg] at h
      cases hm : mapE g as with
      | error e => rw [hm] at h; cases h
      | ok bs =>
        rw [hm] at h
        cases h
        simp [ih hm]

theorem mapE_ok_of_all (g : α → Except PyError β) :
    ∀ (l : List α), (∀ a ∈ l, ∃ b, g a = Except.ok b) →
      ∃ ys, mapE g l = Except.ok ys := by
  intro l
  induction l with
  | nil => intro _; exact ⟨[], rfl⟩
  | cons a as ih =>
    intro h
    obtain ⟨b, hb⟩ := h a (by simp)
    obtain ⟨bs, hbs⟩ := ih (fun x hx => h x (List.mem_cons_of_mem _ hx))
    refine ⟨b :: bs, ?_⟩
    simp only [mapE, hb, hbs]
    rfl

theorem mapE_getElem? (g : α → Except PyError β) :
    ∀ {l : List α} {ys : List β}, mapE g l = Except.ok ys →
      ∀ (k : Nat) (a : α), l[k]? = some a →
        ∃ b, g a = Except.ok b ∧ ys[k]? = some b := by
  intro l
  induction l with
  | nil =>
    intro ys _ k a hk
    simp at hk
  | cons x xs ih =>
    intro ys h k a hk
    simp only [mapE] at h
    cases hg : g x with
    | error e => rw [hg] at h; cases h
    | ok b =>
      rw [hg] at h
      cases hm : mapE g xs with
      | error e => rw [hm] at h; cases h
      | ok bs =>
        rw [hm] at h
        cases h
        cases k with
        | zero =>
          rw [List.getElem?_cons_zero] at hk
          cases hk
          exact ⟨b, hg, List.getElem?_cons_zero⟩
        | succ k =>
          rw [List.getElem?_cons_succ] at hk
          obtain ⟨b', hb', hbs'⟩ := ih hm k a hk
          exact ⟨b', hb', by rw [List.getElem?_cons_succ]; exact hbs'⟩

theorem mapE_mem (g : α → Except PyError β) {l : List α} {ys : List β}
    (h : mapE g l = Except.ok ys) : ∀ y ∈ ys, ∃ a ∈ l, g a = Except.ok y := by
  induction l generalizing ys with
  | nil =>
    simp only [mapE] at h
    cases h
    intro y hy
    simp at hy
  | cons x xs ih =>
    simp only [mapE] at h
    cases hg : g x with
    | error e => rw [hg] at h; cases h
    | ok b =>
      rw [hg] at h
      cases hm : mapE g xs with
      | error e => rw [hm] at h; cases h
      | ok bs =>
        rw [hm] at h
        cases h
        intro y hy
        rcases List.mem_cons.mp hy with rfl | hy
        · exact ⟨x, by simp, hg⟩
        · obtain ⟨a, ha, hga⟩ := ih hm y hy
          exact ⟨a, List.mem_cons_of_mem _ ha, hga⟩

theorem perLabelImages_ok (z : List ZipEntry) (label : String)
    (h : ∀ f ∈ patchFiles z label, ∃ p, imreadEntry z f = Except.ok p) :
    ∃ imgs, perLabelImages z label = Except.ok imgs := by
  obtain ⟨ys, hys⟩ := mapE_ok_of_all (imreadEntry z) (patchFiles z label) h
  refine ⟨ys.map resize64, ?_⟩
  simp only [perLabelImages, hys]
  rfl

theorem perLabelImages_length {z : List ZipEntry} {label : String}
    {imgs : List (List (List Int))} (h : perLabelImages z label = Except.ok imgs) :
    imgs.length = (patchFiles z label).length := by
  simp only [perLabelImages] at h
  cases hm : mapE (imreadEntry z) (patchFiles z label) with
  | error e => rw [hm] at h; cases h
  | ok ys =>
    rw [hm] at h
    cases h
    simp [mapE_length _ hm]

theorem perLabelImages_resize {z : List ZipEntry} {label : String}
    {imgs : List (List (List Int))} (h : perLabelImages z label = Except.ok imgs) :
    ∀ x ∈ imgs, ∃ p, x = resize64 p := by
  simp only [perLabelImages] at h
  cases hm : mapE (imreadEntry z) (patchFiles z label) with
  | error e => rw [hm] at h; cases h
  | ok ys =>
    rw [hm] at h
    cases h
    intro x hx
    obtain ⟨p, _, rfl⟩ := List.mem_map.mp hx
    exact ⟨p, rfl⟩

theorem perLabelImages_getElem {z : List ZipEntry} {label : String}
    {imgs : List (List (List Int))} (h : perLabelImages z label = Except.ok imgs)
    {k : Nat} {f : String} (hf : (patchFiles z label)[k]? = some f)
    {p : List (List Int)} (hp : imreadEntry z f = Except.ok p) :
    imgs[k]? = some (resize64 p) := by
  simp only [perLabelImages] at h
  cases hm : mapE (imreadEntry z) (patchFiles z label) with
  | error e => rw [hm] at h; cases h
  | ok ys =>
    rw [hm] at h
    cases h
    obtain ⟨b, hb, hyk⟩ := mapE_getElem? (imreadEntry z) hm k f hf
    rw [hp] at hb
    cases hb
    rw [List.getElem?_map, hyk]
    rfl

theorem collectLabels_ok (z : List ZipEntry) :
    ∀ (labels : List String) (i : Nat),
      (∀ lab ∈ labels, ∃ imgs, perLabelImages z lab = Except.ok imgs) →
      ∃ IL, collectLabels z i labels = Except.ok IL := by
  intro labels
  induction labels with
  | nil => intro i _; exact ⟨([], []), rfl⟩
  | cons lab rest ih =>
    intro i h
    obtain ⟨imgs, himgs⟩ := h lab (by simp)
    obtain ⟨⟨ri, rl⟩, hrest⟩ := ih (i + 1) (fun x hx => h x (List.mem_cons_of_mem _ hx))
    refine ⟨(imgs ++ ri, List.replicate imgs.length (i : Int) ++ rl), ?_⟩
    simp only [collectLabels, himgs, hrest]
    rfl

theorem collectLabels_struct (z : List ZipEntry) :
    ∀ (labels : List String) (i : Nat) (I : List (List (List Int))) (L : List Int),
      collectLabels z i labels = Except.ok (I, L) →
      I.length = L.length ∧
      L = ((enumFrom i labels).map
        (fun il => List.replicate (patchFiles z il.2).length ((il.1 : Int)))).flatten ∧
      (∀ x ∈ I, ∃ p, x = resize64 p) ∧
      (∀ l ∈ L, ∃ j : Nat, l = (j : Int) ∧ i ≤ j ∧ j < i + labels.length) := by
  intro labels
  induction labels with
  | nil =>
    intro i I L h
    simp only [collectLabels] at h
    cases h
    exact ⟨rfl, rfl, by simp, by simp⟩
  | cons lab rest ih =>
    intro i I L h
    simp only [collectLabels] at h
    cases himgs : perLabelImages z lab with
    | error e => rw [himgs] at h; cases h
    | ok imgs =>
      rw [himgs] at h
      cases hrest : collectLabels z (i + 1) rest with
      | error e => rw [hrest] at h; cases h
      | ok IL =>
        rw [hrest] at h
        cases h
        obtain ⟨hlen, hflat, hres, hrange⟩ := ih (i + 1) IL.1 IL.2 (by
          rw [hrest])
        refine ⟨?_, ?_, ?_, ?_⟩
        · simp [hlen]
        · simp only [enumFrom, List.map_cons, List.flatten_cons]
          rw [hflat, perLabelImages_length himgs]
        · intro x hx
          rcases List.mem_append.mp hx with hx | hx
          · exact perLabelImages_resize himgs x hx
          · exact hres x hx
        · intro l hl
          rcases List.mem_append.mp hl with hl | hl
          · rw [List.eq_of_mem_replicate hl]
            exact ⟨i, rfl, le_refl i, by simp⟩
          · obtain ⟨j, rfl, hj1, hj2⟩ := hrange l hl
            exact ⟨j, rfl, by omega, by simp only [List.length_cons]; omega⟩

theorem collectLabels_mem (z : List ZipEntry) :
    ∀ (labels : List String) (i : Nat) (I : List (List (List Int))) (L : List Int),
      collectLabels z i labels = Except.ok (I, L) →
      ∀ (j : Nat) (lab : String), labels[j]? = some lab →
        ∀ imgs, perLabelImages z lab = Except.ok imgs →
          ∀ (x : List (List Int)) (k : Nat), imgs[k]? = some x →
            ∃ r : Nat, I[r]? = some x ∧ L[r]? = some ((i + j : ℕ) : ℤ) := by
  intro labels
  induction labels with
  | nil =>
    intro i I L _ j lab hj
    simp at hj
  | cons hd tl ih =>
    intro i I L h j lab hj imgs himgs x k hk
    simp only [collectLabels] at h
    cases himgs0 : perLabelImages z hd with
    | error e => rw [himgs0] at h; cases h
    | ok imgs0 =>
      rw [himgs0] at h
      cases hrest : collectLabels z (i + 1) tl with
      | error e => rw [hrest] at h; cases h
      | ok IL =>
        rw [hrest] at h
        cases h
        cases j with
        | zero =>
          rw [List.getElem?_cons_zero] at hj
          cases hj
          rw [himgs0] at himgs
          cases himgs
          have hklt : k < imgs.length := by
            rcases List.getElem?_eq_some_iff.mp hk with ⟨hlt, _⟩
            exact hlt
          refine ⟨k, ?_, ?_⟩
          · rw [List.getElem?_append, if_pos hklt]
            exact hk
          · rw [List.getElem?_append,
              if_pos (show k < (List.replicate imgs.length ((i : Int))).length by
                rw [List.length_replicate]; omega),
              List.getElem?_replicate, if_pos hklt]
            simp
        | succ j =>
          rw [List.getElem?_cons_succ] at hj
          obtain ⟨r, hIr, hLr⟩ := ih (i + 1) IL.1 IL.2 (by rw [hrest]) j lab hj imgs himgs x k hk
          refine ⟨imgs0.length + r, ?_, ?_⟩
          · rw [List.getElem?_append_right (by omega)]
            simpa using hIr
          · rw [List.getElem?_append_right (by rw [List.length_replicate]; omega)]
            rw [List.length_replicate]
            rw [show imgs0.length + r - imgs0.length = r by omega]
            rw [hLr]
            congr 2
            omega

theorem collectZips_ok (labels : List String) :
    ∀ (zips : List (List ZipEntry)),
      (∀ z ∈ zips, ∃ IL, collectLabels z 0 labels = Except.ok IL) →
      ∃ IL, collectZips labels zips = Except.ok IL := by
  intro zips
  induction zips with
  | nil => intro _; exact ⟨([], []), rfl⟩
  | cons z zs ih =>
    intro h
    obtain ⟨⟨zi, zl⟩, hz⟩ := h z (by simp)
    obtain ⟨⟨ri, rl⟩, hrest⟩ := ih (fun x hx => h x (List.mem_cons_of_mem _ hx))
    refine ⟨(zi ++ ri, zl ++ rl), ?_⟩
    simp only [collectZips, hz, hrest]
    rfl

theorem collectZips_struct (labels : List String) :
    ∀ (zips : List (List ZipEntry)) (I : List (List (List Int))) (L : List Int),
      collectZips labels zips = Except.ok (I, L) →
      I.length = L.length ∧
      L = (zips.map (fun z => ((enumFrom 0 labels).map
        (fun il => List.replicate (patchFiles z il.2).length ((il.1 : Int)))).flatten)).flatten ∧
      (∀ x ∈ I, ∃ p, x = resize64 p) ∧
      (∀ l ∈ L, ∃ j : Nat, l = (j : Int) ∧ j < labels.length) := by
  intro zips
  induction zips with
  | nil =>
    intro I L h
    simp only [collectZips] at h
    cases h
    exact ⟨rfl, rfl, by simp, by simp⟩
  | cons z zs ih =>
    intro I L h
    simp only [collectZips] at h
    cases hz : collectLabels z 0 labels with
    | error e => rw [hz] at h; cases h
    | ok zIL =>
      rw [hz] at h
      cases hrest : collectZips labels zs with
      | error e => rw [hrest] at h; cases h
      | ok rIL =>
        rw [hrest] at h
        cases h
        obtain ⟨hlen1, hflat1, hres1, hrange1⟩ :=
          collectLabels_struct z labels 0 zIL.1 zIL.2 (by rw [hz])
        obtain ⟨hlen2, hflat2, hres2, hrange2⟩ := ih rIL.1 rIL.2 (by rw [hrest])
        refine ⟨by simp [hlen1, hlen2], ?_, ?_, ?_⟩
        · simp only [List.map_cons, List.flatten_cons]
          rw [hflat1, hflat2]
        · intro x hx
          rcases List.mem_append.mp hx with hx | hx
          · exact hres1 x hx
          · exact hres2 x hx
        · intro l hl
          rcases List.mem_append.mp hl with hl | hl
          · obtain ⟨j, rfl, _, hj⟩ := hrange1 l hl
            exact ⟨j, rfl, by omega⟩
          · exact hrange2 l hl

theorem create_tf_record_struct {zips : List (List ZipEntry)} {labels : List String}
    {ds : Dataset} (h : create_tf_record zips labels = Except.ok ds) :
    ∃ I L, collectZips labels zips = Except.ok (I, L) ∧ I ≠ [] ∧
      ds.images = I.map (fun img => addChannel (img.map (fun row => row.map toUint8))) ∧
      ds.labels = L.map toInt64 := by
  simp only [create_tf_record] at h
  cases hc : collectZips labels zips with
  | error e => rw [hc] at h; cases h
  | ok IL =>
    rw [hc] at h
    change (if IL.1.isEmpty = true then
        Except.error (PyError.valueError "need at least one array to stack")
      else Except.ok
        ⟨IL.1.map (fun img => addChannel (img.map (fun row => row.map toUint8))),
         IL.2.map toInt64⟩) = Except.ok ds at h
    split at h
    · cases h
    · next hne =>
      cases h
      refine ⟨IL.1, IL.2, rfl, ?_, rfl, rfl⟩
      intro hcon
      rw [hcon] at hne
      simp at hne

/-- Stated from the claim (C10): the expected layout of the label column —
one block per zip archive in input order, and inside each archive one run per
label index `i`, of length the number of that label's matching patch files. -/
def specLabelOrder (zips : List (List ZipEntry)) (labels : List String) : List Int :=
  (zips.map (fun z => ((enumFrom 0 labels).map
    (fun il => List.replicate (patchFiles z il.2).length ((il.1 : Int)))).flatten)).flatten

/-- C4: every label value written into the training record is an integer in
`[0, len(LABELS))`. -/
theorem c4_labels_in_range (zips : List (List ZipEntry)) (ds : Dataset)
    (h : create_tf_record zips LABELS = Except.ok ds) :
    ∀ l ∈ ds.labels, 0 ≤ l ∧ l < (LABELS.length : Int) := by
  obtain ⟨I, L, hc, _, _, hlab⟩ := create_tf_record_struct h
  intro l hl
  rw [hlab] at hl
  obtain ⟨l0, hl0, rfl⟩ := List.mem_map.mp hl
  obtain ⟨_, _, _, hrange⟩ := collectZips_struct LABELS zips I L hc
  obtain ⟨j, rfl, hj⟩ := hrange l0 hl0
  have h5 : LABELS.length = 5 := rfl
  rw [toInt64_small (by omega) (by rw [h5] at hj; omega)]
  constructor
  · omega
  · exact_mod_cast hj

/-- C10: the images and labels arrays have the same first dimension, and the
label column is laid out zip archive by zip archive, and by label index
within each archive. -/
theorem c10_same_length_and_order (zips : List (List ZipEntry)) (ds : Dataset)
    (h : create_tf_record zips LABELS = Except.ok ds) :
    ds.images.length = ds.labels.length ∧ ds.labels = specLabelOrder zips LABELS := by
  obtain ⟨I, L, hc, _, himg, hlab⟩ := create_tf_record_struct h
  obtain ⟨hlen, hflat, _, hrange⟩ := collectZips_struct LABELS zips I L hc
  constructor
  · rw [himg, hlab, List.length_map, List.length_map]
    exact hlen
  · rw [hlab]
    have : ∀ l ∈ L, toInt64 l = l := by
      intro l hl
      obtain ⟨j, rfl, hj⟩ := hrange l hl
      have h5 : LABELS.length = 5 := rfl
      exact toInt64_small (by omega) (by rw [h5] at hj; omega)
    rw [List.map_congr_left this, List.map_id']
    rw [hflat]
    rfl

/-- C7: every image written by `create_tf_record` is the 64×64 resize of a
decoded patch with a trailing channel axis of size 1 and pixels cast to
`uint8` (values in `[0, 256)`), and every label is cast to `int64` (values in
`[-2^63, 2^63)`). -/
theorem c7_resize_stack_cast (zips : List (List ZipEntry)) (labels : List String)
    (ds : Dataset) (h : create_tf_record zips labels = Except.ok ds) :
    (∀ img ∈ ds.images,
      (∃ p, img = addChannel ((resize64 p).map (fun row => row.map toUint8))) ∧
      img.length = 64 ∧
      ∀ row ∈ img, row.length = 64 ∧
        ∀ px ∈ row, px.length = 1 ∧ ∀ v ∈ px, 0 ≤ v ∧ v < 256) ∧
    ∀ l ∈ ds.labels, -(2 ^ 63) ≤ l ∧ l < 2 ^ 63 := by
  obtain ⟨I, L, hc, _, himg, hlab⟩ := create_tf_record_struct h
  obtain ⟨_, _, hres, _⟩ := collectZips_struct labels zips I L hc
  constructor
  · intro img himgmem
    rw [himg] at himgmem
    obtain ⟨x, hx, rfl⟩ := List.mem_map.mp himgmem
    obtain ⟨p, rfl⟩ := hres x hx
    refine ⟨⟨p, rfl⟩, ?_, ?_⟩
    · simp [addChannel, resize64_length]
    · intro row hrow
      simp only [addChannel, List.mem_map] at hrow
      obtain ⟨mr, hmr, rfl⟩ := hrow
      obtain ⟨rr, hrr, rfl⟩ := hmr
      refine ⟨?_, ?_⟩
      · simp only [List.length_map]
        exact resize64_rows p rr hrr
      · intro px hpx
        obtain ⟨w, hw, rfl⟩ := List.mem_map.mp hpx
        refine ⟨rfl, ?_⟩
        intro v hv
        simp only [List.mem_singleton] at hv
        subst hv
        obtain ⟨u, _, rfl⟩ := List.mem_map.mp hw
        exact toUint8_range u
  · intro l hl
    rw [hlab] at hl
    obtain ⟨l0, _, rfl⟩ := List.mem_map.mp hl
    exact toInt64_range l0

/-- A concrete exported archive with one Interphase patch. -/
def testZip : List ZipEntry :=
  [⟨"Interphase/Interphase_T_0.tif", ZipContent.tiff [[1, 2], [5, 6]]⟩]

/-- The dataset `create_tf_record` produces from `[testZip]`. -/
def testDataset : Dataset :=
  ⟨[addChannel ((resize64 [[1, 2], [5, 6]]).map (fun row => row.map toUint8))], [0]⟩

theorem create_testZip_eq : create_tf_record [testZip] LABELS = Except.ok testDataset := by
  rfl

theorem c4_witness :
    (0 : Int) ∈ testDataset.labels ∧ 0 ≤ (0 : Int) ∧ (0 : Int) < (LABELS.length : Int) :=
  ⟨by decide, c4_labels_in_range [testZip] testDataset create_testZip_eq 0 (by decide)⟩

theorem c10_witness :
    testDataset.images.length = testDataset.labels.length ∧
    testDataset.labels = specLabelOrder [testZip] LABELS :=
  c10_same_length_and_order [testZip] testDataset create_testZip_eq

theorem c7_witness :
    (∀ img ∈ testDataset.images,
      (∃ p, img = addChannel ((resize64 p).map (fun row => row.map toUint8))) ∧
      img.length = 64 ∧
      ∀ row ∈ img, row.length = 64 ∧
        ∀ px ∈ row, px.length = 1 ∧ ∀ v ∈ px, 0 ≤ v ∧ v < 256) ∧
    ∀ l ∈ testDataset.labels, -(2 ^ 63) ≤ l ∧ l < 2 ^ 63 :=
  c7_resize_stack_cast [testZip] LABELS testDataset create_testZip_eq

theorem suffix_data_append (a b : String) : b.data <:+ (a ++ b).data := by
  rw [String.data_append]
  exact List.suffix_append _ _

theorem pyStartswith_append (pre rest : String) : pyStartswith (pre ++ rest) pre = true := by
  unfold pyStartswith
  rw [List.isPrefixOf_iff_prefix, String.data_append]
  exact List.prefix_append _ _

theorem prefix_data_append (a b : String) : a.data <+: (a ++ b).data := by
  rw [String.data_append]
  exact List.prefix_append _ _

theorem patchFileName_startswith (t : String) (idx : Nat) (lbl : String) :
    pyStartswith (patchFileName t idx lbl) lbl = true := by
  unfold pyStartswith patchFileName
  rw [List.isPrefixOf_iff_prefix]
  refine List.IsPrefix.trans ?_ (prefix_data_append _ ".tif")
  refine List.IsPrefix.trans ?_ (prefix_data_append _ (toString idx))
  refine List.IsPrefix.trans ?_ (prefix_data_append _ "_")
  refine List.IsPrefix.trans ?_ (prefix_data_append _ t)
  refine List.IsPrefix.trans ?_ (prefix_data_append _ "_")
  refine List.IsPrefix.trans ?_ (prefix_data_append _ lbl)
  exact prefix_data_append lbl "/"

theorem patchFileName_endswith_tif (t : String) (idx : Nat) (lbl : String) :
    pyEndswith (patchFileName t idx lbl) ".tif" = true := by
  unfold pyEndswith patchFileName
  rw [List.isSuffixOf_iff_suffix]
  exact suffix_data_append _ ".tif"

theorem jsonName_endswith_json (t : String) :
    pyEndswith ("annotation_" ++ t ++ ".json") ".json" = true := by
  unfold pyEndswith
  rw [List.isSuffixOf_iff_suffix]
  exact suffix_data_append _ ".json"

theorem pyEndswith_json_not_tif {x : String} (h : pyEndswith x ".json" = true) :
    pyEndswith x ".tif" = false := by
  cases hg : pyEndswith x ".tif" with
  | false => rfl
  | true =>
    exfalso
    unfold pyEndswith at h hg
    obtain ⟨u, hu⟩ := List.isSuffixOf_iff_suffix.mp h
    obtain ⟨v, hv⟩ := List.isSuffixOf_iff_suffix.mp hg
    have hlast := congrArg List.getLast? (hu.trans hv.symm)
    have h1 : (u ++ (".json" : String).data).getLast? = some 'n' := by
      rw [List.getLast?_append]
      rfl
    have h2 : (v ++ (".tif" : String).data).getLast? = some 'f' := by
      rw [List.getLast?_append]
      rfl
    rw [h1, h2] at hlast
    exact absurd (Option.some.inj hlast) (by decide)

theorem find?_name_of_nodup {l : List ZipEntry} {e : ZipEntry} (he : e ∈ l)
    (hnd : (l.map ZipEntry.name).Nodup) :
    l.find? (fun x => x.name == e.name) = some e := by
  induction l with
  | nil => cases he
  | cons a as ih =>
    simp only [List.map_cons, List.nodup_cons] at hnd
    by_cases hae : (a.name == e.name) = true
    · rw [List.find?_cons, hae]
      rcases List.mem_cons.mp he with rfl | hmem
      · rfl
      · exact absurd ((eq_of_beq hae) ▸ List.mem_map_of_mem ZipEntry.name hmem) hnd.1
    · rw [Bool.not_eq_true] at hae
      rw [List.find?_cons, hae]
      rcases List.mem_cons.mp he with rfl | hmem
      · simp at hae
      · exact ih hmem hnd.2

theorem imreadEntry_of_entry {l : List ZipEntry} {fn : String} {p : List (List Int)}
    (he : (⟨fn, ZipContent.tiff p⟩ : ZipEntry) ∈ l)
    (hnd : (l.map ZipEntry.name).Nodup) :
    imreadEntry l fn = Except.ok p := by
  unfold imreadEntry zipOpen
  rw [find?_name_of_nodup he hnd]
  rfl

theorem except_if_ok {α : Type} {c : Prop} [Decidable c] {msg : PyError} {v w : α}
    (h : (if c then Except.ok v else Except.error msg) = Except.ok w) : c ∧ v = w := by
  by_cases hc : c
  · rw [if_pos hc] at h
    exact ⟨hc, Except.ok.inj h⟩
  · rw [if_neg hc] at h
    cases h

theorem npShape2_rows {p : List (List Int)} {s : Nat × Nat}
    (h : npShape2 p = some s) : ∀ row ∈ p, row.length = s.2 := by
  cases p with
  | nil => cases h
  | cons r rs =>
    simp only [npShape2] at h
    split at h
    · next hall =>
      cases h
      intro row hrow
      rcases List.mem_cons.mp hrow with rfl | hrow
      · rfl
      · have := List.all_eq_true.mp hall row hrow
        simpa using this
    · cases h

theorem get_image_patch_ok_shape {layers : List ImageLayer} {coords : ℚ × ℚ × ℚ}
    {shape : Nat} {patch : List (List Int)}
    (h : get_image_patch layers coords shape = Except.ok patch) :
    npShape2 patch = some (shape, shape) := by
  cases layers with
  | nil => cases h
  | cons layer rest =>
    simp only [get_image_patch] at h
    cases hidx : pyIndex layer.data (pyInt coords.1) with
    | none => rw [hidx] at h; cases h
    | some image =>
      rw [hidx] at h
      obtain ⟨hcond, hv⟩ := except_if_ok h
      rw [← hv]
      exact hcond

theorem get_image_patch_ok_pixels {layer : ImageLayer} {rest : List ImageLayer}
    {coords : ℚ × ℚ × ℚ} {shape : Nat} {patch : List (List Int)}
    (h : get_image_patch (layer :: rest) coords shape = Except.ok patch) :
    ∀ row ∈ patch, ∀ v ∈ row, ∃ frame ∈ layer.data, ∃ row0 ∈ frame, v ∈ row0 := by
  simp only [get_image_patch] at h
  cases hidx : pyIndex layer.data (pyInt coords.1) with
  | none => rw [hidx] at h; cases h
  | some image =>
    rw [hidx] at h
    obtain ⟨hcond, hv⟩ := except_if_ok h
    rw [← hv]
    intro row hrow v hv2
    obtain ⟨row0, hrow0, rfl⟩ := List.mem_map.mp hrow
    refine ⟨image, pyIndex_mem hidx, row0, ?_, ?_⟩
    · exact (pySlice_sublist image _ _).mem hrow0
    · exact (pySlice_sublist row0 _ _).mem hv2

theorem resize64_of_shape64 {p : List (List Int)} (h : npShape2 p = some (64, 64)) :
    resize64 p = p := by
  have hlen : p.length = 64 := (npShape2_fst h).symm
  have hrows : ∀ row ∈ p, row.length = 64 := fun row hr => npShape2_rows h row hr
  have hw : (p.headD []).length = 64 := by
    cases hp : p with
    | nil => rw [hp] at hlen; simp at hlen
    | cons r rs =>
      simp only [List.headD_cons]
      exact hrows r (by rw [hp]; exact List.mem_cons_self r rs)
  unfold resize64
  simp only [hlen, hw]
  have hdiv : ∀ i : Nat, i * 64 / 64 = i := by intro i; omega
  apply List.ext_getElem
  · simp [hlen]
  · intro n h1 h2
    rw [List.getElem_map, List.getElem_range]
    apply List.ext_getElem
    · simp only [List.length_map, List.length_range]
      exact (hrows p[n] (p.getElem_mem h2)).symm
    · intro j hj1 hj2
      rw [List.getElem_map, List.getElem_range, hdiv, hdiv]
      unfold pixelAt
      have hpn : p.getD n [] = p[n] := by
        rw [List.getD_eq_getElem?_getD, List.getElem?_eq_getElem h2]
        rfl
      rw [hpn, List.getD_eq_getElem?_getD, List.getElem?_eq_getElem hj2]
      rfl

theorem create_tf_record_ok_of {zips : List (List ZipEntry)} {labels : List String}
    {I : List (List (List Int))} {L : List Int}
    (hc : collectZips labels zips = Except.ok (I, L)) (hne : I ≠ []) :
    create_tf_record zips labels = Except.ok
      ⟨I.map (fun img => addChannel (img.map (fun row => row.map toUint8))),
       L.map toInt64⟩ := by
  simp only [create_tf_record, hc]
  have key : (if I.isEmpty = true then
      (Except.error (PyError.valueError "need at least one array to stack") :
        Except PyError Dataset)
    else Except.ok
      ⟨I.map (fun img => addChannel (img.map (fun row => row.map toUint8))),
       L.map toInt64⟩) = Except.ok
      ⟨I.map (fun img => addChannel (img.map (fun row => row.map toUint8))),
       L.map toInt64⟩ := by
    rw [if_neg (by simp only [List.isEmpty_iff]; exact hne)]
  exact key

/-- C3: round trip through the export format — a patch exported for an
annotated point into a session zip is read back by `create_tf_record` with
the same pixel values (with the trailing channel axis appended) and is paired
with the numeric index of that point's label name in the 5-element `LABELS`
list. -/
theorem c3_export_roundtrip (sessionTime : String) (layer : ImageLayer)
    (rest : List ImageLayer) (points : List AnnPoint) (uvl : Bool)
    (hok : (cnn_annotation_widget sessionTime (layer :: rest) points 64 uvl).exportError =
      none)
    (hnd : ((cnn_annotation_widget sessionTime (layer :: rest) points 64 uvl).entries.map
      ZipEntry.name).Nodup)
    (hrange : ∀ frame ∈ layer.data, ∀ row ∈ frame, ∀ v ∈ row, 0 ≤ v ∧ v < 256)
    (k : Nat) (pk : AnnPoint) (hk : points[k]? = some pk) (hlab : pk.state ∈ LABELS) :
    ∀ patch, get_image_patch (layer :: rest) pk.coords 64 = Except.ok patch →
      ∃ (ds : Dataset) (r : Nat),
        create_tf_record
          [(cnn_annotation_widget sessionTime (layer :: rest) points 64 uvl).entries]
          LABELS = Except.ok ds ∧
        ds.images[r]? = some (addChannel patch) ∧
        ds.labels[r]? = some ((LABELS.indexOf pk.state : ℕ) : ℤ) := by
  intro patch hget
  obtain ⟨hloop, hent⟩ :=
    cnn_annotation_widget_ok sessionTime (layer :: rest) points 64 uvl hok
  obtain ⟨patch0, hget0, hmem0⟩ :=
    exportLoop_ok_mem sessionTime (layer :: rest) 64 points 0 hloop k pk hk
  rw [hget] at hget0
  obtain rfl : patch = patch0 := Except.ok.inj hget0
  set E := (cnn_annotation_widget sessionTime (layer :: rest) points 64 uvl).entries
    with hE
  rw [Nat.zero_add] at hmem0
  have hmemE : (⟨patchFileName sessionTime k pk.state, ZipContent.tiff patch⟩ :
      ZipEntry) ∈ E := by
    rw [hent]
    exact List.mem_append_left _ hmem0
  have hLfacts : ∃ j : Nat, LABELS[j]? = some pk.state ∧
      pyCapitalize pk.state = pk.state ∧ LABELS.indexOf pk.state = j := by
    simp only [LABELS, List.mem_cons, List.not_mem_nil, or_false] at hlab
    rcases hlab with h | h | h | h | h
    · exact ⟨0, by rw [h]; decide, by rw [h]; decide, by rw [h]; decide⟩
    · exact ⟨1, by rw [h]; decide, by rw [h]; decide, by rw [h]; decide⟩
    · exact ⟨2, by rw [h]; decide, by rw [h]; decide, by rw [h]; decide⟩
    · exact ⟨3, by rw [h]; decide, by rw [h]; decide, by rw [h]; decide⟩
    · exact ⟨4, by rw [h]; decide, by rw [h]; decide, by rw [h]; decide⟩
  obtain ⟨j, hj, hcap, hidxof⟩ := hLfacts
  have hfnmem : patchFileName sessionTime k pk.state ∈ patchFiles E pk.state := by
    unfold patchFiles
    refine List.mem_filter.mpr ⟨?_, ?_⟩
    · simpa using List.mem_map_of_mem ZipEntry.name hmemE
    · rw [hcap, Bool.and_eq_true]
      exact ⟨patchFileName_endswith_tif _ _ _, patchFileName_startswith _ _ _⟩
  obtain ⟨kf, hkf⟩ := List.mem_iff_getElem?.mp hfnmem
  have hread : imreadEntry E (patchFileName sessionTime k pk.state) = Except.ok patch :=
    imreadEntry_of_entry hmemE hnd
  have hreads : ∀ lab ∈ LABELS, ∀ f ∈ patchFiles E lab,
      ∃ p, imreadEntry E f = Except.ok p := by
    intro lab _ f hf
    unfold patchFiles at hf
    obtain ⟨hfmem, hfpred⟩ := List.mem_filter.mp hf
    obtain ⟨e1, he1, hename⟩ := List.mem_map.mp hfmem
    have hfind0 : (E.find? (fun x => x.name == f)).isSome = true :=
      List.find?_isSome.mpr ⟨e1, he1, by rw [hename]; simp⟩
    obtain ⟨e2, hfind⟩ := Option.isSome_iff_exists.mp hfind0
    have he2name : e2.name = f := by
      have := List.find?_some hfind
      simpa using this
    have he2mem : e2 ∈ E := List.mem_of_find?_eq_some hfind
    rw [hent] at he2mem
    rcases List.mem_append.mp he2mem with hmem | hmem
    · obtain ⟨q, hq⟩ :=
        exportLoop_entries_tiff sessionTime (layer :: rest) 64 points 0 e2 hmem
      refine ⟨q, ?_⟩
      unfold imreadEntry zipOpen
      rw [hfind]
      simp [hq]
    · simp only [List.mem_singleton] at hmem
      subst hmem
      exfalso
      have hjson : pyEndswith f ".json" = true := by
        rw [← he2name]
        exact jsonName_endswith_json sessionTime
      rw [Bool.and_eq_true] at hfpred
      have htif : pyEndswith f ".tif" = true := hfpred.1
      rw [pyEndswith_json_not_tif hjson] at htif
      cases htif
  have hperok : ∀ lab ∈ LABELS, ∃ imgs, perLabelImages E lab = Except.ok imgs :=
    fun lab hl => perLabelImages_ok E lab (hreads lab hl)
  obtain ⟨⟨I, L⟩, hcl⟩ := collectLabels_ok E LABELS 0 hperok
  obtain ⟨imgs, himgs⟩ := hperok pk.state hlab
  have himgk : imgs[kf]? = some (resize64 patch) :=
    perLabelImages_getElem himgs hkf hread
  obtain ⟨r, hIr, hLr⟩ :=
    collectLabels_mem E LABELS 0 I L hcl j pk.state hj imgs himgs (resize64 patch) kf himgk
  have hcz : collectZips LABELS [E] = Except.ok (I ++ [], L ++ []) := by
    simp only [collectZips, hcl]
    rfl
  have hIne : I ++ [] ≠ [] := by
    intro hcon
    rw [List.append_nil] at hcon
    rw [hcon] at hIr
    simp at hIr
  refine ⟨_, r, create_tf_record_ok_of hcz hIne, ?_, ?_⟩
  · show ((I ++ []).map
      (fun img : List (List Int) =>
        addChannel (img.map (fun row : List Int => row.map toUint8))))[r]? =
      some (addChannel patch)
    rw [List.append_nil, List.getElem?_map, hIr]
    simp only [Option.map_some']
    have hshape := get_image_patch_ok_shape hget
    rw [resize64_of_shape64 hshape]
    have hpx : ∀ row ∈ patch, row.map toUint8 = row := by
      intro row hrow
      have hv : ∀ v ∈ row, toUint8 v = v := by
        intro v hv
        obtain ⟨frame, hframe, row0, hrow0, hv0⟩ :=
          get_image_patch_ok_pixels hget row hrow v hv
        have := hrange frame hframe row0 hrow0 v hv0
        unfold toUint8
        omega
      rw [List.map_congr_left hv, List.map_id']
    have hcast : patch.map (fun row => row.map toUint8) = patch := by
      rw [List.map_congr_left hpx, List.map_id']
    rw [hcast]
  · show ((L ++ []).map toInt64)[r]? = some ((LABELS.indexOf pk.state : ℕ) : ℤ)
    rw [List.append_nil, List.getElem?_map, hLr]
    simp only [Option.map_some']
    have hjlt : j < LABELS.length := by
      rcases List.getElem?_eq_some_iff.mp hj with ⟨hlt, _⟩
      exact hlt
    have h5 : LABELS.length = 5 := rfl
    have hj5 : j < 5 := by rw [h5] at hjlt; exact hjlt
    rw [hidxof, Nat.zero_add]
    have htj : toInt64 ((j : ℕ) : ℤ) = ((j : ℕ) : ℤ) :=
      toInt64_small (by omega) (by omega)
    show some (toInt64 ((j : ℕ) : ℤ)) = some ((j : ℕ) : ℤ)
    rw [htj]

/-- A concrete one-frame 64×64 movie with pixel values in `[0, 256)`. -/
def bigFrame : List (List Int) :=
  (List.range 64).map (fun i => (List.range 64).map
    (fun j => (((i * 64 + j) % 256 : Nat) : Int)))

/-- A visible image layer holding the 64×64 movie. -/
def bigLayer : ImageLayer :=
  ⟨"GFP", [bigFrame], [("filename", "../MDCK_H2B_GFP_movie.tif")], true⟩

/-- A point whose 64×64 crop is exactly the full frame of `bigFrame`. -/
def bigPoint : AnnPoint :=
  ⟨((0 : ℚ), (32 : ℚ), (32 : ℚ)), "Metaphase"⟩

set_option maxRecDepth 100000 in
theorem c3_witness :
    ∃ (ds : Dataset) (r : Nat),
      create_tf_record
        [(cnn_annotation_widget "T" [bigLayer] [bigPoint] 64 true).entries]
        LABELS = Except.ok ds ∧
      ds.images[r]? = some (addChannel bigFrame) ∧
      ds.labels[r]? = some ((LABELS.indexOf bigPoint.state : ℕ) : ℤ) :=
  c3_export_roundtrip "T" bigLayer [] [bigPoint] true (by decide) (by decide) (by decide)
    0 bigPoint (by rfl) (by decide) bigFrame (by rfl)
